import Mathlib

/-!
Verification of the qorus-remote packaging and upload engine.

The definitions below are a shallow embedding of the two Python sources
`make_release.py` (class MakeRelease) and `qorus_remote_commands.py`
(the oload helpers).  The filesystem and the HTTP transport are modelled
as explicit parameters (`FS`, a response function), POSIX path semantics
are assumed (`os.path.isabs p` is `p` starting with a slash,
`platform.system() != 'Windows'`), and Python's `sys.exit(1)` /
uncaught exceptions are modelled as `Except.error`.
-/

set_option autoImplicit false

namespace QorusRemote

/-! ## String and path helpers (POSIX `os.path` semantics) -/

/-- Characters after the last `'.'` of a list, `none` when there is no dot. -/
def afterLastDot : List Char → Option (List Char)
  | [] => none
  | c :: cs =>
    match afterLastDot cs with
    | some r => some r
    | none => if c = '.' then some cs else none

/-- Split a path at its last `'/'`: the characters before it and after it.
`none` when the path has no slash. -/
def lastSlashSplit : List Char → Option (List Char × List Char)
  | [] => none
  | c :: cs =>
    match lastSlashSplit cs with
    | some (d, b) => some (c :: d, b)
    | none => if c = '/' then some ([], cs) else none

/-- `pat` is a prefix of `s` (character lists). -/
def charsPre : List Char → List Char → Bool
  | [], _ => true
  | _ :: _, [] => false
  | a :: asx, b :: bs => a = b && charsPre asx bs

/-- `s.startswith(pat)` (computable down to characters). -/
def strStarts (s pat : String) : Bool := charsPre pat.data s.data

/-- `s.endswith(pat)` (computable down to characters). -/
def strEnds (s pat : String) : Bool := charsPre pat.data.reverse s.data.reverse

/-- `s[n:]` for a character count `n`. -/
def strDrop (s : String) (n : Nat) : String := ⟨s.data.drop n⟩

/-- The length of `s` in characters. -/
def strLen (s : String) : Nat := s.data.length

/-- Drop trailing slashes. -/
def rstripSlash (cs : List Char) : List Char :=
  (cs.reverse.dropWhile (fun c => c = '/')).reverse

/-- `os.path.dirname` on POSIX: everything up to the last slash, with
trailing slashes stripped unless the head is all slashes. -/
def dirname (s : String) : String :=
  match lastSlashSplit s.data with
  | none => ""
  | some (d, _) =>
    let head := d ++ ['/']
    if head.all (fun c => c = '/') then ⟨head⟩ else ⟨rstripSlash head⟩

/-- `os.path.basename` on POSIX: everything after the last slash. -/
def basename (s : String) : String :=
  match lastSlashSplit s.data with
  | none => s
  | some (_, b) => ⟨b⟩

/-- `os.path.join a b` on POSIX (two arguments). -/
def osJoin (a b : String) : String :=
  if strStarts b "/" then b
  else if a = "" ∨ strEnds a "/" then a ++ b
  else a ++ "/" ++ b

/-- `os.path.isabs` on POSIX. -/
def isAbsolute (s : String) : Bool := strStarts s "/"

/-- Python `re.search('[*?]', s)`: the string holds a glob wildcard. -/
def hasWildcard (s : String) : Bool :=
  s.data.any (fun c => c = '*' ∨ c = '?')

/-- Python `re.search(pat + reDollar, s)` for a literal pattern `pat`,
where the final regex character is the end anchor: it matches at the end
of the string or just before a newline that ends the string. -/
def searchEnd (pat s : String) : Bool :=
  strEnds s pat || strEnds s (pat ++ "\n")

/-- `pat` occurs as a contiguous substring of `s` (character lists),
Python's `pat in s` on strings. -/
def charsSubstr (pat : List Char) : List Char → Bool
  | [] => charsPre pat []
  | b :: bs => charsPre pat (b :: bs) || charsSubstr pat bs

/-! ## `make_release.py`: data model -/

/-- The dependency-bearing fields of a parsed YAML artifact descriptor:
`code`, the four service resource lists (in the order of
`MakeRelease.YamlServiceResources`), and the
`api-manager.provider-options.schema.value` path. -/
structure SvcYaml where
  code : Option String := none
  resource : List String := []
  textResource : List String := []
  binResource : List String := []
  template : List String := []
  apiSchema : Option String := none
deriving DecidableEq, Repr

/-- The environment a resolution run reads: YAML parsing (`none` models a
caught parse/IO exception), `MakeRelease.is_readable`, `glob.glob` and
`os.access(fn, os.X_OK)`. -/
structure FS where
  parseYaml : String → Option SvcYaml
  readable : String → Bool
  glob : String → List String
  isExecutable : String → Bool

/-- An entry of `resource_list`: the `source`/`target` dict appended by
`MakeRelease.processResource`. -/
structure ResourceRef where
  source : String
  target : String
deriving DecidableEq, Repr

/-- An abort of the run: `sys.exit(1)` from `checkAbsolutePath` or
`MakeRelease.error`, or an uncaught Python exception. -/
inductive MRError where
  | absolutePath
  | resourceMissing
  | resourceGlobMismatch
  | attributeError
deriving DecidableEq, Repr

/-- The mutable state threaded through `MakeRelease.makeList`:
`file_map` (a dict used as a set: its key list), `madeList` and
`resource_list`. -/
structure MRState where
  fileMap : List String
  madeList : List String
  resourceList : List ResourceRef
deriving DecidableEq, Repr

/-! ## `make_release.py`: dependency resolution -/

/-- `MakeRelease.processResource`: check the resource reference and
append the `(source, target)` pair, aborting on an absolute reference, a
missing literal reference or a glob reference matching nothing. -/
def processResource (fs : FS) (entry : String) (resourceName : String)
    (resourceList : List ResourceRef) : Except MRError (List ResourceRef) :=
  if isAbsolute resourceName then .error .absolutePath
  else
    let resourcePath := osJoin (dirname entry) resourceName
    if ¬ hasWildcard resourceName then
      if ¬ fs.readable resourcePath then .error .resourceMissing
      else .ok (resourceList ++ [⟨resourcePath, resourceName⟩])
    else if fs.glob resourcePath = [] then .error .resourceGlobMismatch
    else .ok (resourceList ++ [⟨resourcePath, resourceName⟩])

/-- `processResource` over a list of declared resource names. -/
def processResourceList (fs : FS) (entry : String) (names : List String)
    (resourceList : List ResourceRef) : Except MRError (List ResourceRef) :=
  match names with
  | [] => .ok resourceList
  | n :: rest =>
    match processResource fs entry n resourceList with
    | .ok rl => processResourceList fs entry rest rl
    | .error e => .error e

/-- The service-resource section of `MakeRelease.processFile`: the four
resource-kind lists in `YamlServiceResources` order, then the
`api-manager` schema value. -/
def processSvcResources (fs : FS) (entry : String) (fh : SvcYaml)
    (resourceList : List ResourceRef) : Except MRError (List ResourceRef) :=
  match processResourceList fs entry fh.resource resourceList with
  | .error e => .error e
  | .ok rl =>
    match processResourceList fs entry fh.textResource rl with
    | .error e => .error e
    | .ok rl =>
      match processResourceList fs entry fh.binResource rl with
      | .error e => .error e
      | .ok rl =>
        match processResourceList fs entry fh.template rl with
        | .error e => .error e
        | .ok rl =>
          match fh.apiSchema with
          | some s => processResource fs entry s rl
          | none => .ok rl

/-- The `code` section of `MakeRelease.processFile`: when the descriptor
declares a code entry point that is readable and not yet in `file_map`,
record it in `file_map` and `madeList`. -/
def addCode (fs : FS) (entry : String) (fh : SvcYaml) (st : MRState) : MRState :=
  match fh.code with
  | none => st
  | some code =>
    let src := osJoin (dirname entry) code
    if fs.readable src = true ∧ src ∉ st.fileMap then
      { st with fileMap := st.fileMap ++ [src], madeList := st.madeList ++ [src] }
    else st

/-- The `.yaml` branch of `MakeRelease.processFile` (the body of its
`try`, with the caught exceptions modelled by `parseYaml` returning
`none`): record the `code` dependency, then for service descriptors
(`.qsd.yaml`) process the declared resources and the API-management
schema. -/
def processFileYaml (fs : FS) (entry : String) (st : MRState) :
    Except MRError MRState :=
  if searchEnd ".yaml" entry then
    match fs.parseYaml entry with
    | none => .ok st
    | some fh =>
      if searchEnd ".qsd.yaml" entry then
        match processSvcResources fs entry fh (addCode fs entry fh st).resourceList with
        | .ok rl => .ok { addCode fs entry fh st with resourceList := rl }
        | .error e => .error e
      else .ok (addCode fs entry fh st)
  else .ok st

/-- `MakeRelease.processFile`.  The final branch models the legacy
`.qsd` scan: the source calls `e.readLines()` on a file object, which
raises an uncaught `AttributeError` (file objects define `readlines`),
so reaching that branch aborts the run. -/
def processFile (fs : FS) (entry : String) (st : MRState) : Except MRError MRState :=
  match processFileYaml fs entry { st with madeList := st.madeList ++ [entry] } with
  | .error e => .error e
  | .ok st2 =>
    if st2.resourceList ≠ [] ∧ searchEnd ".qsd" entry then .error .attributeError
    else .ok st2

/-- `processFile` folded over a glob expansion. -/
def processFiles (fs : FS) (entries : List String) (st : MRState) :
    Except MRError MRState :=
  match entries with
  | [] => .ok st
  | e :: rest =>
    match processFile fs e st with
    | .ok st => processFiles fs rest st
    | .error err => .error err

/-- The loop of `MakeRelease.makeList`: skip backup entries, expand glob
entries, and process each file. -/
def makeListGo (fs : FS) (entries : List String) (st : MRState) :
    Except MRError MRState :=
  match entries with
  | [] => .ok st
  | entry :: rest =>
    if searchEnd "~" entry then makeListGo fs rest st
    else if hasWildcard entry then
      match processFiles fs (fs.glob entry) st with
      | .ok st => makeListGo fs rest st
      | .error err => .error err
    else
      match processFile fs entry st with
      | .ok st => makeListGo fs rest st
      | .error err => .error err

/-- `MakeRelease.makeList`: seed `file_map` with the whole input list,
run the loop, and return `madeList` with the accumulated resources. -/
def makeList (fs : FS) (fileList : List String) :
    Except MRError (List String × List ResourceRef) :=
  (makeListGo fs fileList ⟨fileList, [], []⟩).map
    (fun st => (st.madeList, st.resourceList))

/-! ## `make_release.py`: manifest builder -/

/-- `MakeRelease.getExt`: `re.match(dotStarDotGroupDollar, fn)`, the
regex being a greedy any-run, a literal dot, a captured any-run and the
end anchor.  `.` does not match a newline and the anchor also matches
just before a newline that ends the string, so the whole match must be
newline-free apart from an optional trailing newline. -/
def getExt (fn : String) : String :=
  let cs := fn.data
  let s := if cs.getLast? = some '\n' then cs.dropLast else cs
  if '\n' ∈ s then ""
  else
    match afterLastDot s with
    | some r => ⟨r⟩
    | none => ""

/-- The spec reading of `getExt`: the substring after the last dot of
the name, empty when the name has no dot.  Kept separate so that it can
be compared with the regex-faithful `getExt`. -/
def extAfterLastDot (fn : String) : String :=
  match afterLastDot fn.data with
  | some r => ⟨r⟩
  | none => ""

/-- The keys of `LoadFileTypes`: extensions that emit a `load` directive. -/
def LoadFileTypes : List String :=
  ["qfd", "qsd", "java", "qclass", "qconst", "qwf", "qjob", "qconn", "qsm",
   "qmapper", "qvmap", "qscript", "qstep", "qmc", "yaml", "py"]

/-- The keys of `ExtraFileTypes`: extensions packaged but silently left
out of the manifest. -/
def ExtraFileTypes : List String :=
  ["wsdl", "xml", "xsd", "dtd", "qm", "qlib", "jar", "class", "json",
   "qtest", "qc", "qhtml", "qjs", "qjson"]

/-- The options of `MakeRelease` consumed by the manifest builder.
`pref`/`padd` are `some` exactly when the Python attribute is truthy. -/
structure Opts where
  pref : Option String := none
  padd : Option String := none
  usql : List String := []
  ref : Bool := false
  rcompat : Bool := false
deriving DecidableEq, Repr

/-- A line written to the user release file (the header comment aside). -/
inductive Directive where
  | load (path : String)
  | execSql (path : String)
  | refreshRecursive
  | refreshAll
deriving DecidableEq, Repr

/-- A warning printed while building the release file. -/
inductive Warning where
  | noExt (fn : String)
  | unknownExt (ext fn : String)
  | sqlExt (fn : String)
deriving DecidableEq, Repr

/-- `MakeRelease.getLoadPath` (POSIX: no backslash substitution). -/
def getLoadPath (opts : Opts) (rootDir fn : String) : String :=
  let fn := if strStarts fn rootDir then strDrop fn (strLen rootDir) else fn
  match opts.pref with
  | some p => osJoin p fn
  | none =>
    match opts.padd with
    | some p => osJoin p fn
    | none => fn

/-- One iteration of the load loop of `createUserReleaseFile`: at most
one directive written and at most one warning printed for the file. -/
def manifestStep (fs : FS) (opts : Opts) (rootDir fn : String) :
    Option Directive × Option Warning :=
  let ext := getExt fn
  if ext = "" then
    (none, if fs.isExecutable fn then none else some (.noExt fn))
  else if ext ∈ LoadFileTypes then
    (some (.load (getLoadPath opts rootDir fn)), none)
  else if ext ∈ ExtraFileTypes then (none, none)
  else (none, some (.unknownExt ext fn))

/-- The load loop of `createUserReleaseFile` over the whole list. -/
def loadSection (fs : FS) (opts : Opts) (rootDir : String) :
    List String → List Directive × List Warning
  | [] => ([], [])
  | fn :: rest =>
    ((manifestStep fs opts rootDir fn).1.toList ++ (loadSection fs opts rootDir rest).1,
     (manifestStep fs opts rootDir fn).2.toList ++ (loadSection fs opts rootDir rest).2)

/-- The user-SQL loop of `createUserReleaseFile`: one `omquser-exec-sql`
directive per SQL file, with a warning when the extension does not end
in `sql`. -/
def sqlSection (opts : Opts) (rootDir : String) :
    List String → List Directive × List Warning
  | [] => ([], [])
  | fn :: rest =>
    (Directive.execSql (getLoadPath opts rootDir fn) :: (sqlSection opts rootDir rest).1,
     (if searchEnd "sql" (getExt fn) then [] else [Warning.sqlExt fn])
       ++ (sqlSection opts rootDir rest).2)

/-- The trailing refresh directive of `createUserReleaseFile`. -/
def refreshSection (opts : Opts) : List Directive :=
  if opts.ref then [.refreshRecursive]
  else if opts.rcompat then [.refreshAll]
  else []

/-- The `root_dir` computed at the top of `createUserReleaseFile`. -/
def releaseRoot (path : String) : String :=
  if dirname path = "." then "" else dirname path

/-- `MakeRelease.createUserReleaseFile`: the directives written to the
release file at `path` (in file order) and the warnings printed.
`ulist` is `self._ulist`, substituted when `load_list` is empty. -/
def createUserReleaseFile (fs : FS) (opts : Opts) (ulist : List String)
    (path : String) (loadList : List String) : List Directive × List Warning :=
  let rootDir := releaseRoot path
  let ll := if loadList = [] then ulist else loadList
  ((loadSection fs opts rootDir ll).1 ++ (sqlSection opts rootDir opts.usql).1
     ++ refreshSection opts,
   (loadSection fs opts rootDir ll).2 ++ (sqlSection opts rootDir opts.usql).2)

/-! ## `qorus_remote_commands.py`: oload helpers -/

/-- Python dict assignment `fm[k] = v` on an association list. -/
def dictSet (fm : List (String × String)) (k v : String) :
    List (String × String) :=
  if fm.any (fun p => p.1 = k) then
    fm.map (fun p => if p.1 = k then (k, v) else p)
  else fm ++ [(k, v)]

/-- The loop of `oload_add_src_files`, threading the accumulated
`sfiles` and the file map. -/
def oloadSrcGo (fs : FS) :
    List String → List String → List (String × String) →
    Except Unit (List String × List (String × String))
  | [], sfiles, fm => .ok (sfiles, fm)
  | ofile :: rest, sfiles, fm =>
    if strEnds ofile ".yaml" ∨ strEnds ofile ".yml" then
      match fs.parseYaml ofile with
      | none => .error ()
      | some doc =>
        match doc.code with
        | some c =>
          if c ≠ "" then
            let path := osJoin (dirname ofile) c
            oloadSrcGo fs rest (sfiles ++ [path]) (dictSet fm path c)
          else oloadSrcGo fs rest sfiles (dictSet fm ofile (basename ofile))
        | none => oloadSrcGo fs rest sfiles (dictSet fm ofile (basename ofile))
    else oloadSrcGo fs rest sfiles (dictSet fm ofile (basename ofile))

/-- `oload_add_src_files`.  The whole loop runs inside one
`try/except Exception` whose handler calls `remote_print_exception`,
which ends in `sys.exit(1)`: any YAML parse or access error (a doc whose
`code` cannot be read) aborts the entire run, modelled by `Except.error`. -/
def oload_add_src_files (fs : FS) (ofiles : List String)
    (filemap : List (String × String)) :
    Except Unit (List String × List (String × String)) :=
  oloadSrcGo fs ofiles [] filemap

/-- The HTML error marker `oload_upload_files` looks for in a response
body. -/
def htmlMarker : String := "<html><head><title>"

/-- Python `htmlMarker in s`. -/
def containsHtmlMarker (s : String) : Bool :=
  charsSubstr htmlMarker.data s.data

/-- `s` begins with the HTML error marker. -/
def startsWithHtmlMarker (s : String) : Bool :=
  charsPre htmlMarker.data s.data

/-- The target filename sent in the `filepath` header:
`filemap.get(ofile, os.path.basename(ofile))`. -/
def uploadName (filemap : List (String × String)) (ofile : String) : String :=
  ((filemap.lookup ofile).getD (basename ofile))

/-- One POST issued by `oload_upload_files`: the file, its `filepath`
header and its `dir` header (`none` when the header is absent). -/
structure UploadReq where
  file : String
  filepath : String
  dir : Option String
deriving DecidableEq, Repr

/-- The loop of `oload_upload_files`.  `resp k` is the body of the
response to the k-th POST of the run.  Returns the requests actually
issued and either the final directory or the abort (`sys.exit(1)` on an
HTML error body). -/
def uploadLoop (resp : Nat → String) (filemap : List (String × String)) :
    List String → String → Nat → List UploadReq × Except Unit String
  | [], dir, _ => ([], .ok dir)
  | f :: rest, dir, k =>
    let filename := uploadName filemap f
    if dir = "" then
      let req : UploadReq := ⟨f, filename, none⟩
      let r := resp k
      if containsHtmlMarker r then ([req], .error ())
      else
        let out := uploadLoop resp filemap rest r (k + 1)
        (req :: out.1, out.2)
    else
      let req : UploadReq := ⟨f, filename, some dir⟩
      let r := resp k
      if containsHtmlMarker r then ([req], .error ())
      else
        let out := uploadLoop resp filemap rest dir (k + 1)
        (req :: out.1, out.2)

/-- `oload_upload_files` as called from `oload_handle`: empty starting
directory, responses numbered from zero.  (`if not files: return
directory` only short-circuits the empty run, which the loop also
handles.) -/
def oload_upload_files (resp : Nat → String) (filemap : List (String × String))
    (files : List String) : List UploadReq × Except Unit String :=
  uploadLoop resp filemap files "" 0

/-! ## Concrete environments used by witnesses and counterexamples -/

/-- A filesystem with nothing in it: no YAML parses, nothing is
readable or executable, every glob is empty. -/
def fsTriv : FS :=
  { parseYaml := fun _ => none, readable := fun _ => false,
    glob := fun _ => [], isExecutable := fun _ => false }

/-- A filesystem where every path is readable and executable and no
YAML parses. -/
def fsAll : FS :=
  { parseYaml := fun _ => none, readable := fun _ => true,
    glob := fun _ => [], isExecutable := fun _ => true }

/-- A filesystem where `bad.yaml` raises on parse and every other YAML
parses to an empty descriptor. -/
def fsHalfBad : FS :=
  { parseYaml := fun s => if s = "bad.yaml" then none else some {},
    readable := fun _ => true, glob := fun _ => [], isExecutable := fun _ => false }

/-! ## C10: extension extraction -/

/-- C10 (counterexample): `getExt` is not always the substring after the
last dot of the name.  On the name `"a.b\nc"` the regex match fails (the
dot of the pattern cannot cross the newline and the anchor cannot match
before an interior newline), so `getExt` yields `""` while the substring
after the last dot is `"b\nc"`. -/
theorem getExt_newline_cex :
    getExt "a.b\nc" = "" ∧ extAfterLastDot "a.b\nc" = "b\nc" ∧
      getExt "a.b\nc" ≠ extAfterLastDot "a.b\nc" := by
  refine ⟨rfl, rfl, ?_⟩
  decide

/-- C10 (amended): for a file name free of newline characters, `getExt`
is exactly the substring after the last dot, and empty when the name has
no dot. -/
theorem getExt_eq_extAfterLastDot (fn : String) (h : '\n' ∉ fn.data) :
    getExt fn = extAfterLastDot fn := by
  have h1 : fn.data.getLast? ≠ some '\n' := by
    intro hc
    have hm : '\n' ∈ fn.data.getLast? := by rw [hc]; rfl
    obtain ⟨hne, hx⟩ := List.mem_getLast?_eq_getLast hm
    exact h (hx ▸ List.getLast_mem hne)
  unfold getExt extAfterLastDot
  simp only [if_neg h1, if_neg h]

/-- C10 witness: the amended statement at the concrete name
`"a.tar.gz"`. -/
theorem getExt_eq_extAfterLastDot_witness :
    getExt "a.tar.gz" = extAfterLastDot "a.tar.gz" :=
  getExt_eq_extAfterLastDot "a.tar.gz" (by decide)

/-! ## C5: resource reference resolution -/

/-- C5 (counterexample): an absolute resource reference that is readable
(a "literal path that exists") does not get a `(source, target)` pair
recorded: `checkAbsolutePath` aborts the run first. -/
theorem processResource_absolute_cex :
    fsAll.readable "/abs/r.html" = true ∧ hasWildcard "/abs/r.html" = false ∧
      processResource fsAll "d/svc.qsd.yaml" "/abs/r.html" [] =
        .error .absolutePath := by
  exact ⟨rfl, by decide, rfl⟩

/-- C5 (amended): for a non-absolute resource reference, a literal
reference to an unreadable path aborts with a missing-resource error, a
wildcard reference whose glob matches nothing aborts with a
glob-mismatch error, and otherwise the `(source, target)` pair is
appended. -/
theorem processResource_spec (fs : FS) (entry name : String)
    (rl : List ResourceRef) (habs : isAbsolute name = false) :
    (hasWildcard name = false →
      fs.readable (osJoin (dirname entry) name) = false →
      processResource fs entry name rl = .error .resourceMissing) ∧
    (hasWildcard name = true →
      fs.glob (osJoin (dirname entry) name) = [] →
      processResource fs entry name rl = .error .resourceGlobMismatch) ∧
    (hasWildcard name = false →
      fs.readable (osJoin (dirname entry) name) = true →
      processResource fs entry name rl =
        .ok (rl ++ [⟨osJoin (dirname entry) name, name⟩])) ∧
    (hasWildcard name = true →
      fs.glob (osJoin (dirname entry) name) ≠ [] →
      processResource fs entry name rl =
        .ok (rl ++ [⟨osJoin (dirname entry) name, name⟩])) := by
  refine ⟨?_, ?_, ?_, ?_⟩ <;> intro h1 h2 <;>
    simp [processResource, habs, h1, h2]

/-- C5 witness: the amended statement at a concrete readable literal
reference. -/
theorem processResource_spec_witness :
    processResource fsAll "d/svc.qsd.yaml" "r.html" [] =
      .ok [⟨"d/r.html", "r.html"⟩] :=
  (processResource_spec fsAll "d/svc.qsd.yaml" "r.html" [] rfl).2.2.1
    (by decide) rfl

/-! ## C6: legacy `.qsd` marker scan -/

/-- C6 (code bug): whenever a `.qsd` file is processed while the
accumulated resource list is non-empty, `processFile` aborts: the source
calls `e.readLines()`, which raises an uncaught `AttributeError` before
any line is scanned (and its marker regex uses POSIX character classes
Python does not support).  With an empty resource list the branch is not
even entered, so no legacy scan ever records a resource. -/
theorem processFile_qsd_scan_raises :
    processFile fsTriv "svc.qsd" ⟨[], [], [⟨"r", "r"⟩]⟩ =
      .error .attributeError ∧
    processFile fsTriv "svc.qsd" ⟨[], [], []⟩ =
      .ok ⟨[], ["svc.qsd"], []⟩ := by
  exact ⟨rfl, rfl⟩

/-! ## C8: manifest classification warnings -/

/-- C8 (counterexample): a file with the unknown extension `foo` is
warned about even though it is executable; the executability exemption
is only consulted for names with no extension at all. -/
theorem manifestStep_warns_despite_executable :
    fsAll.isExecutable "script.foo" = true ∧
    getExt "script.foo" ∉ LoadFileTypes ∧
    getExt "script.foo" ∉ ExtraFileTypes ∧
    (manifestStep fsAll {} "" "script.foo").2 =
      some (.unknownExt "foo" "script.foo") := by
  refine ⟨rfl, by decide, by decide, rfl⟩

/-- C8 (amended): a warning is emitted exactly for the files whose
extension is empty and which are not executable, or whose extension is
non-empty and in neither extension set (executability is not consulted
then); a `load` directive is written exactly for the files whose
extension is in the loadable set. -/
theorem manifestStep_warning_iff (fs : FS) (opts : Opts) (rootDir fn : String) :
    ((manifestStep fs opts rootDir fn).2 ≠ none ↔
      ((getExt fn = "" ∧ fs.isExecutable fn = false) ∨
       (getExt fn ≠ "" ∧ getExt fn ∉ LoadFileTypes ∧
        getExt fn ∉ ExtraFileTypes))) ∧
    ((manifestStep fs opts rootDir fn).1 ≠ none ↔
      (getExt fn ≠ "" ∧ getExt fn ∈ LoadFileTypes)) := by
  by_cases h1 : getExt fn = ""
  · cases h2 : fs.isExecutable fn <;> simp [manifestStep, h1, h2]
  · by_cases h2 : getExt fn ∈ LoadFileTypes
    · simp [manifestStep, h1, h2]
    · by_cases h3 : getExt fn ∈ ExtraFileTypes <;>
        simp [manifestStep, h1, h2, h3]

/-! ## C2, C7: manifest ordering and refresh directive -/

/-- The load directive `manifestStep` emits, as a conditional. -/
theorem manifestStep_fst (fs : FS) (opts : Opts) (rootDir fn : String) :
    (manifestStep fs opts rootDir fn).1 =
      if getExt fn ≠ "" ∧ getExt fn ∈ LoadFileTypes then
        some (Directive.load (getLoadPath opts rootDir fn))
      else none := by
  by_cases h1 : getExt fn = ""
  · simp [manifestStep, h1]
  · by_cases h2 : getExt fn ∈ LoadFileTypes
    · simp [manifestStep, h1, h2]
    · by_cases h3 : getExt fn ∈ ExtraFileTypes <;>
        simp [manifestStep, h1, h2, h3]

/-- The load directives of the load section are exactly the loadable
files, in input order, each rewritten by `getLoadPath`. -/
theorem loadSection_fst (fs : FS) (opts : Opts) (rootDir : String)
    (l : List String) :
    (loadSection fs opts rootDir l).1 =
      (l.filter fun fn =>
          decide (getExt fn ≠ "" ∧ getExt fn ∈ LoadFileTypes)).map
        (fun fn => Directive.load (getLoadPath opts rootDir fn)) := by
  induction l with
  | nil => rfl
  | cons fn rest ih =>
    by_cases h : getExt fn ≠ "" ∧ getExt fn ∈ LoadFileTypes <;>
      simp [loadSection, manifestStep_fst, h, ih, List.filter_cons]

/-- The SQL section writes one `omquser-exec-sql` directive per user SQL
file, in input order. -/
theorem sqlSection_fst (opts : Opts) (rootDir : String) (l : List String) :
    (sqlSection opts rootDir l).1 =
      l.map (fun fn => Directive.execSql (getLoadPath opts rootDir fn)) := by
  induction l with
  | nil => rfl
  | cons fn rest ih => simp [sqlSection, ih]

/-- C2: for a non-empty explicit list, the release file is the `load`
directives of the loadable files in their input order, then one
`omquser-exec-sql` directive per user SQL file in their input order,
then the refresh section. -/
theorem createUserReleaseFile_directive_order (fs : FS) (opts : Opts)
    (ulist : List String) (path : String) (loadList : List String)
    (h : loadList ≠ []) :
    ∃ L S R, (createUserReleaseFile fs opts ulist path loadList).1 = L ++ S ++ R ∧
      L = (loadList.filter fun fn =>
            decide (getExt fn ≠ "" ∧ getExt fn ∈ LoadFileTypes)).map
          (fun fn => Directive.load (getLoadPath opts (releaseRoot path) fn)) ∧
      S = opts.usql.map
          (fun fn => Directive.execSql (getLoadPath opts (releaseRoot path) fn)) ∧
      R = refreshSection opts := by
  refine ⟨_, _, _, ?_, (loadSection_fst fs opts (releaseRoot path) loadList).symm.symm,
    (sqlSection_fst opts (releaseRoot path) opts.usql).symm.symm, rfl⟩
  simp [createUserReleaseFile, h, loadSection_fst, sqlSection_fst]

/-- C2 witness: the ordering statement at a concrete input list. -/
theorem createUserReleaseFile_directive_order_witness :
    ∃ L S R,
      (createUserReleaseFile fsTriv
          { usql := ["u.sql"], ref := true } [] "rel/x.qrf"
          ["a.qfd", "b.txt", "c.qsd"]).1 = L ++ S ++ R ∧
      L = ((["a.qfd", "b.txt", "c.qsd"].filter fun fn =>
            decide (getExt fn ≠ "" ∧ getExt fn ∈ LoadFileTypes)).map
          (fun fn => Directive.load
            (getLoadPath { usql := ["u.sql"], ref := true }
              (releaseRoot "rel/x.qrf") fn))) ∧
      S = (["u.sql"].map
          (fun fn => Directive.execSql
            (getLoadPath { usql := ["u.sql"], ref := true }
              (releaseRoot "rel/x.qrf") fn))) ∧
      R = refreshSection { usql := ["u.sql"], ref := true } :=
  createUserReleaseFile_directive_order fsTriv
    { usql := ["u.sql"], ref := true } [] "rel/x.qrf"
    ["a.qfd", "b.txt", "c.qsd"] (by decide)

/-- Every directive of the load section is a `load` directive. -/
theorem mem_loadSection_fst {fs : FS} {opts : Opts} {rootDir : String}
    {l : List String} {d : Directive}
    (h : d ∈ (loadSection fs opts rootDir l).1) : ∃ p, d = Directive.load p := by
  rw [loadSection_fst] at h
  obtain ⟨fn, _, rfl⟩ := List.mem_map.mp h
  exact ⟨_, rfl⟩

/-- Every directive of the SQL section is an `omquser-exec-sql`
directive. -/
theorem mem_sqlSection_fst {opts : Opts} {rootDir : String}
    {l : List String} {d : Directive}
    (h : d ∈ (sqlSection opts rootDir l).1) : ∃ p, d = Directive.execSql p := by
  rw [sqlSection_fst] at h
  obtain ⟨fn, _, rfl⟩ := List.mem_map.mp h
  exact ⟨_, rfl⟩

/-- C7: the release file ends in at most one refresh directive:
`refresh-recursive` exactly when the refresh option is set (also when
both refresh options are set), `refresh-all` exactly when only the
compatibility option is set, and no refresh directive otherwise. -/
theorem createUserReleaseFile_refresh (fs : FS) (opts : Opts)
    (ulist : List String) (path : String) (loadList : List String) :
    ((createUserReleaseFile fs opts ulist path loadList).1.count
        Directive.refreshRecursive +
      (createUserReleaseFile fs opts ulist path loadList).1.count
        Directive.refreshAll ≤ 1) ∧
    (opts.ref = true →
      (createUserReleaseFile fs opts ulist path loadList).1.getLast? =
        some Directive.refreshRecursive ∧
      Directive.refreshAll ∉ (createUserReleaseFile fs opts ulist path loadList).1) ∧
    (opts.ref = false → opts.rcompat = true →
      (createUserReleaseFile fs opts ulist path loadList).1.getLast? =
        some Directive.refreshAll) ∧
    (opts.ref = false → opts.rcompat = false →
      Directive.refreshRecursive ∉ (createUserReleaseFile fs opts ulist path loadList).1 ∧
      Directive.refreshAll ∉ (createUserReleaseFile fs opts ulist path loadList).1) := by
  have hL : ∀ d ∈ (loadSection fs opts (releaseRoot path)
      (if loadList = [] then ulist else loadList)).1, ∃ p, d = Directive.load p :=
    fun d hd => mem_loadSection_fst hd
  have hS : ∀ d ∈ (sqlSection opts (releaseRoot path) opts.usql).1,
      ∃ p, d = Directive.execSql p :=
    fun d hd => mem_sqlSection_fst hd
  have hrecL : Directive.refreshRecursive ∉ (loadSection fs opts (releaseRoot path)
      (if loadList = [] then ulist else loadList)).1 := by
    intro hmem; obtain ⟨p, hp⟩ := hL _ hmem; cases hp
  have hallL : Directive.refreshAll ∉ (loadSection fs opts (releaseRoot path)
      (if loadList = [] then ulist else loadList)).1 := by
    intro hmem; obtain ⟨p, hp⟩ := hL _ hmem; cases hp
  have hrecS : Directive.refreshRecursive ∉
      (sqlSection opts (releaseRoot path) opts.usql).1 := by
    intro hmem; obtain ⟨p, hp⟩ := hS _ hmem; cases hp
  have hallS : Directive.refreshAll ∉
      (sqlSection opts (releaseRoot path) opts.usql).1 := by
    intro hmem; obtain ⟨p, hp⟩ := hS _ hmem; cases hp
  have hout : (createUserReleaseFile fs opts ulist path loadList).1 =
      (loadSection fs opts (releaseRoot path)
        (if loadList = [] then ulist else loadList)).1 ++
      (sqlSection opts (releaseRoot path) opts.usql).1 ++
      refreshSection opts := rfl
  rw [hout]
  refine ⟨?_, ?_, ?_, ?_⟩
  · rw [List.count_append, List.count_append, List.count_append, List.count_append]
    rw [List.count_eq_zero.mpr hrecL, List.count_eq_zero.mpr hallL,
      List.count_eq_zero.mpr hrecS, List.count_eq_zero.mpr hallS]
    unfold refreshSection
    by_cases h1 : opts.ref <;> by_cases h2 : opts.rcompat <;> simp [h1, h2]
  · intro h1
    constructor
    · have hA : (sqlSection opts (releaseRoot path) opts.usql).1 ++
          refreshSection opts ≠ [] := by simp [refreshSection, h1]
      have hB : refreshSection opts ≠ [] := by simp [refreshSection, h1]
      rw [List.append_assoc, List.getLast?_append_of_ne_nil _ hA,
        List.getLast?_append_of_ne_nil _ hB]
      simp [refreshSection, h1]
    · simp only [List.mem_append]
      rintro ((hmem | hmem) | hmem)
      · exact hallL hmem
      · exact hallS hmem
      · simp [refreshSection, h1] at hmem
  · intro h1 h2
    have hA : (sqlSection opts (releaseRoot path) opts.usql).1 ++
        refreshSection opts ≠ [] := by simp [refreshSection, h1, h2]
    have hB : refreshSection opts ≠ [] := by simp [refreshSection, h1, h2]
    rw [List.append_assoc, List.getLast?_append_of_ne_nil _ hA,
      List.getLast?_append_of_ne_nil _ hB]
    simp [refreshSection, h1, h2]
  · intro h1 h2
    constructor
    · simp only [List.mem_append]
      rintro ((hmem | hmem) | hmem)
      · exact hrecL hmem
      · exact hrecS hmem
      · simp [refreshSection, h1, h2] at hmem
    · simp only [List.mem_append]
      rintro ((hmem | hmem) | hmem)
      · exact hallL hmem
      · exact hallS hmem
      · simp [refreshSection, h1, h2] at hmem

/-! ## C1: deduplication of the resolved list -/

/-- `addCode` either leaves `file_map` and `madeList` unchanged or
appends one code file, fresh for `file_map`, to both. -/
theorem addCode_state (fs : FS) (entry : String) (fh : SvcYaml) (st : MRState) :
    ((addCode fs entry fh st).fileMap = st.fileMap ∧
      (addCode fs entry fh st).madeList = st.madeList) ∨
    (∃ src, src ∉ st.fileMap ∧
      (addCode fs entry fh st).fileMap = st.fileMap ++ [src] ∧
      (addCode fs entry fh st).madeList = st.madeList ++ [src]) := by
  cases hcode : fh.code with
  | none => left; constructor <;> simp [addCode, hcode]
  | some code =>
    by_cases hc : fs.readable (osJoin (dirname entry) code) = true ∧
        osJoin (dirname entry) code ∉ st.fileMap
    · right
      refine ⟨osJoin (dirname entry) code, hc.2, ?_, ?_⟩ <;>
        simp [addCode, hcode, hc]
    · left; constructor <;> simp [addCode, hcode, hc]

/-- The `.yaml` branch either leaves `file_map` and `madeList` unchanged
or appends one fresh code file to both. -/
theorem processFileYaml_ok_state {fs : FS} {entry : String} {st st' : MRState}
    (h : processFileYaml fs entry st = .ok st') :
    (st'.fileMap = st.fileMap ∧ st'.madeList = st.madeList) ∨
    (∃ src, src ∉ st.fileMap ∧ st'.fileMap = st.fileMap ++ [src] ∧
      st'.madeList = st.madeList ++ [src]) := by
  unfold processFileYaml at h
  split at h
  · split at h
    · injection h with h2
      subst h2
      exact Or.inl ⟨rfl, rfl⟩
    · rename_i fh _
      split at h
      · split at h
        · rename_i rl _
          injection h with h2
          subst h2
          rcases addCode_state fs entry fh st with ⟨hf1, hm1⟩ | ⟨src, hsrc, hf1, hm1⟩
          · exact Or.inl ⟨hf1, hm1⟩
          · exact Or.inr ⟨src, hsrc, hf1, hm1⟩
        · simp at h
      · injection h with h2
        subst h2
        rcases addCode_state fs entry fh st with ⟨hf1, hm1⟩ | ⟨src, hsrc, hf1, hm1⟩
        · exact Or.inl ⟨hf1, hm1⟩
        · exact Or.inr ⟨src, hsrc, hf1, hm1⟩
  · injection h with h2
    subst h2
    exact Or.inl ⟨rfl, rfl⟩

/-- How one `processFile` step changes `file_map` and `madeList`: the
entry is always appended to `madeList`, and at most one derived code
file is appended to both, only when it was not yet in `file_map`. -/
theorem processFile_ok_state {fs : FS} {entry : String} {st st' : MRState}
    (h : processFile fs entry st = .ok st') :
    (st'.fileMap = st.fileMap ∧ st'.madeList = st.madeList ++ [entry]) ∨
    (∃ src, src ∉ st.fileMap ∧ st'.fileMap = st.fileMap ++ [src] ∧
      st'.madeList = st.madeList ++ [entry] ++ [src]) := by
  unfold processFile at h
  split at h
  · simp at h
  · rename_i st2 hyam
    split at h
    · simp at h
    · injection h with h2
      subst h2
      rcases processFileYaml_ok_state hyam with ⟨hf1, hm1⟩ | ⟨src, hsrc, hf1, hm1⟩
      · exact Or.inl ⟨hf1, hm1⟩
      · exact Or.inr ⟨src, hsrc, hf1, hm1⟩

/-- The loop invariant for `makeListGo` on a wildcard-free, duplicate-free
entry list: `madeList` stays duplicate-free. -/
theorem makeListGo_nodup (fs : FS) :
    ∀ (l : List String) (st st' : MRState),
      (∀ e ∈ l, hasWildcard e = false) →
      st.madeList.Nodup →
      (∀ x ∈ st.madeList, x ∈ st.fileMap) →
      (∀ x ∈ l, x ∈ st.fileMap) →
      l.Nodup →
      (∀ x ∈ st.madeList, x ∉ l) →
      makeListGo fs l st = .ok st' →
      st'.madeList.Nodup := by
  intro l
  induction l with
  | nil =>
    intro st st' _ h1 _ _ _ _ hok
    unfold makeListGo at hok
    cases hok
    exact h1
  | cons e rest ih =>
    intro st st' hw h1 h2 h3 h4 h5 hok
    unfold makeListGo at hok
    by_cases hskip : searchEnd "~" e = true
    · rw [if_pos hskip] at hok
      exact ih st st' (fun x hx => hw x (List.mem_cons_of_mem _ hx)) h1 h2
        (fun x hx => h3 x (List.mem_cons_of_mem _ hx))
        (List.nodup_cons.mp h4).2
        (fun x hx hc => h5 x hx (List.mem_cons_of_mem _ hc)) hok
    · rw [if_neg hskip] at hok
      have hwe : hasWildcard e = false := hw e (List.mem_cons_self _ _)
      rw [if_neg (by simp [hwe])] at hok
      cases hpf : processFile fs e st with
      | error err => rw [hpf] at hok; simp at hok
      | ok stm =>
        rw [hpf] at hok
        have hem : e ∉ st.madeList := fun hc => h5 e hc (List.mem_cons_self _ _)
        have hef : e ∈ st.fileMap := h3 e (List.mem_cons_self _ _)
        rcases processFile_ok_state hpf with ⟨hfm, hml⟩ | ⟨src, hsrc, hfm, hml⟩
        · refine ih stm st'
            (fun x hx => hw x (List.mem_cons_of_mem _ hx)) ?_ ?_ ?_
            (List.nodup_cons.mp h4).2 ?_ hok
          · rw [hml]
            simp [List.nodup_append, h1, hem]
          · intro x hx
            rw [hml] at hx
            rw [hfm]
            rcases List.mem_append.mp hx with hx | hx
            · exact h2 x hx
            · simp at hx; subst hx; exact hef
          · intro x hx
            rw [hfm]
            exact h3 x (List.mem_cons_of_mem _ hx)
          · intro x hx
            rw [hml] at hx
            rcases List.mem_append.mp hx with hx | hx
            · exact fun hc => h5 x hx (List.mem_cons_of_mem _ hc)
            · simp at hx; subst hx
              exact (List.nodup_cons.mp h4).1
        · have hsm : src ∉ st.madeList := fun hc => hsrc (h2 src hc)
          have hse : src ≠ e := fun hc => hsrc (hc ▸ hef)
          refine ih stm st'
            (fun x hx => hw x (List.mem_cons_of_mem _ hx)) ?_ ?_ ?_
            (List.nodup_cons.mp h4).2 ?_ hok
          · rw [hml]
            simp [List.nodup_append, h1, hem, hsm, hse, Ne.symm hse]
          · intro x hx
            rw [hml] at hx
            rw [hfm]
            rcases List.mem_append.mp hx with hx | hx
            · rcases List.mem_append.mp hx with hx | hx
              · exact List.mem_append.mpr (Or.inl (h2 x hx))
              · simp at hx; subst hx
                exact List.mem_append.mpr (Or.inl hef)
            · simp at hx; subst hx
              simp
          · intro x hx
            rw [hfm]
            exact List.mem_append.mpr (Or.inl (h3 x (List.mem_cons_of_mem _ hx)))
          · intro x hx
            rw [hml] at hx
            rcases List.mem_append.mp hx with hx | hx
            · rcases List.mem_append.mp hx with hx | hx
              · exact fun hc => h5 x hx (List.mem_cons_of_mem _ hc)
              · simp at hx; subst hx
                exact (List.nodup_cons.mp h4).1
            · simp at hx; subst hx
              exact fun hc => hsrc (h3 _ (List.mem_cons_of_mem _ hc))

/-- C1 (counterexample): a file given explicitly twice appears twice in
the resolved list — `madeList.append(entry)` is unconditional for
explicit entries, so explicit duplicates are not deduplicated. -/
theorem makeList_duplicate_explicit_cex :
    makeList fsTriv ["a", "a"] = .ok (["a", "a"], []) ∧
      ¬ (["a", "a"] : List String).Nodup := by
  exact ⟨rfl, by decide⟩

/-- C1 (amended): for a duplicate-free, wildcard-free explicit input
list, the resolved list is duplicate-free: derived code files are
deduplicated against the whole explicit set and all previously derived
files (by exact path string).  Resolution is a pure function of the
filesystem and the input, so running it twice yields the same list. -/
theorem makeList_nodup_of_nodup_input (fs : FS) (fileList : List String)
    (hnd : fileList.Nodup)
    (hw : ∀ e ∈ fileList, hasWildcard e = false)
    (ml : List String) (rl : List ResourceRef)
    (hok : makeList fs fileList = .ok (ml, rl)) :
    ml.Nodup := by
  unfold makeList at hok
  cases hgo : makeListGo fs fileList ⟨fileList, [], []⟩ with
  | error e => rw [hgo] at hok; simp [Except.map] at hok
  | ok st' =>
    rw [hgo] at hok
    simp only [Except.map, Except.ok.injEq, Prod.mk.injEq] at hok
    have hml : st'.madeList = ml := hok.1
    rw [← hml]
    exact makeListGo_nodup fs fileList ⟨fileList, [], []⟩ st' hw
      List.nodup_nil (by intro x hx; simp at hx)
      (fun x hx => hx) hnd (by intro x hx; simp at hx) hgo

/-- C1 witness: the amended statement at a concrete duplicate-free
input. -/
theorem makeList_nodup_witness :
    makeList fsTriv ["a", "b"] = .ok (["a", "b"], []) ∧
      (["a", "b"] : List String).Nodup :=
  ⟨rfl, makeList_nodup_of_nodup_input fsTriv ["a", "b"] (by decide)
    (by decide) ["a", "b"] [] rfl⟩

/-! ## C3: recovery from malformed descriptors -/

/-- On a batch of plain entries (no backup suffix, no wildcard, not
legacy `.qsd`) whose YAML parses all fail, `makeListGo` succeeds and
appends every entry. -/
theorem makeListGo_all_plain (fs : FS) :
    ∀ (l : List String) (fm ml : List String),
      (∀ e ∈ l, searchEnd "~" e = false ∧ hasWildcard e = false ∧
        fs.parseYaml e = none ∧ searchEnd ".qsd" e = false) →
      makeListGo fs l ⟨fm, ml, []⟩ = .ok ⟨fm, ml ++ l, []⟩ := by
  intro l
  induction l with
  | nil =>
    intro fm ml _
    simp [makeListGo]
  | cons e rest ih =>
    intro fm ml h
    obtain ⟨h1, h2, h3, h4⟩ := h e (List.mem_cons_self _ _)
    have hpf : processFile fs e ⟨fm, ml, []⟩ = .ok ⟨fm, ml ++ [e], []⟩ := by
      unfold processFile processFileYaml
      by_cases hy : searchEnd ".yaml" e = true
      · simp [hy, h3, h4]
      · simp [hy, h4]
    unfold makeListGo
    rw [if_neg (by simp [h1]), if_neg (by simp [h2]), hpf]
    dsimp only
    rw [ih fm (ml ++ [e]) (fun x hx => h x (List.mem_cons_of_mem _ hx))]
    simp

/-- C3 (amended, archive-build path): in `MakeRelease.makeList` a
descriptor whose YAML fails to parse contributes no dependencies and
does not abort: a whole batch of unparseable descriptors still resolves
to exactly the explicit list. -/
theorem makeList_recovers_from_yaml_errors (fs : FS) (fileList : List String)
    (h : ∀ e ∈ fileList, searchEnd "~" e = false ∧ hasWildcard e = false ∧
      fs.parseYaml e = none ∧ searchEnd ".qsd" e = false) :
    makeList fs fileList = .ok (fileList, []) := by
  unfold makeList
  rw [makeListGo_all_plain fs fileList fileList [] h]
  simp [Except.map]

/-- C3 witness: a two-descriptor batch where both parses fail still
resolves. -/
theorem makeList_recovers_witness :
    makeList fsTriv ["a.yaml", "b.yaml"] = .ok (["a.yaml", "b.yaml"], []) :=
  makeList_recovers_from_yaml_errors fsTriv ["a.yaml", "b.yaml"] (by decide)

/-- C3 (counterexample, upload path): in `oload_add_src_files` one
unparseable YAML aborts the entire run (`remote_print_exception` exits),
so the rest of the batch is not processed — even though the same batch
without the bad file succeeds. -/
theorem oload_add_src_files_aborts_cex :
    oload_add_src_files fsHalfBad ["bad.yaml", "good.yaml"] [] = .error () ∧
    oload_add_src_files fsHalfBad ["good.yaml"] [] =
      .ok ([], [("good.yaml", "good.yaml")]) := by
  exact ⟨rfl, rfl⟩

/-! ## C4, C9: upload directory allocation and HTML error abort -/

/-- Once a directory is allocated, the loop reuses it unchanged for
every remaining upload (as long as no response is an HTML error). -/
theorem uploadLoop_fixed_dir (resp : Nat → String)
    (filemap : List (String × String))
    (hhtml : ∀ k, containsHtmlMarker (resp k) = false) :
    ∀ (l : List String) (dir : String) (k : Nat), dir ≠ "" →
      uploadLoop resp filemap l dir k =
        (l.map (fun g => ⟨g, uploadName filemap g, some dir⟩), .ok dir) := by
  intro l
  induction l with
  | nil => intro dir k _; simp [uploadLoop]
  | cons f rest ih =>
    intro dir k hdir
    unfold uploadLoop
    rw [if_neg hdir, if_neg (by simp [hhtml k])]
    rw [ih dir (k + 1) hdir]
    simp

/-- C4: in a run of at least one upload with non-HTML responses and a
non-empty allocation response, the first request carries no `dir`
header, the directory is the first response body, and every later
request carries exactly that directory. -/
theorem uploadLoop_allocates_once (resp : Nat → String)
    (filemap : List (String × String)) (f : String) (rest : List String)
    (hhtml : ∀ k, containsHtmlMarker (resp k) = false)
    (h0 : resp 0 ≠ "") :
    oload_upload_files resp filemap (f :: rest) =
      (⟨f, uploadName filemap f, none⟩ ::
        rest.map (fun g => ⟨g, uploadName filemap g, some (resp 0)⟩),
       .ok (resp 0)) := by
  unfold oload_upload_files uploadLoop
  rw [if_pos rfl, if_neg (by simp [hhtml 0])]
  rw [uploadLoop_fixed_dir resp filemap hhtml rest (resp 0) 1 h0]

/-- C4 witness: a three-file run against a server answering `d1`. -/
theorem uploadLoop_allocates_once_witness :
    oload_upload_files (fun _ => "d1") [] ["a", "b", "c"] =
      ([⟨"a", "a", none⟩, ⟨"b", "b", some "d1"⟩, ⟨"c", "c", some "d1"⟩],
       .ok "d1") := by
  have h := uploadLoop_allocates_once (fun _ => "d1") [] "a" ["b", "c"]
    (fun _ => rfl) (by decide)
  simpa using h

/-- `charsPre` at a position is in particular a substring occurrence. -/
theorem charsSubstr_of_charsPre (pat : List Char) :
    ∀ s : List Char, charsPre pat s = true → charsSubstr pat s = true := by
  intro s
  cases s with
  | nil => intro h; simpa [charsSubstr] using h
  | cons b bs => intro h; simp [charsSubstr, h]

/-- A body that begins with the HTML document marker contains it. -/
theorem containsHtmlMarker_of_starts {s : String}
    (h : startsWithHtmlMarker s = true) : containsHtmlMarker s = true :=
  charsSubstr_of_charsPre htmlMarker.data s.data h

/-- The loop aborts at the first HTML response: the outcome is the
abort, and exactly the uploads up to and including that response were
issued. -/
theorem uploadLoop_html_abort (resp : Nat → String)
    (filemap : List (String × String)) :
    ∀ (l : List String) (dir : String) (k i : Nat),
      i < l.length →
      startsWithHtmlMarker (resp (k + i)) = true →
      (∀ j, j < i → containsHtmlMarker (resp (k + j)) = false) →
      (uploadLoop resp filemap l dir k).2 = .error () ∧
      (uploadLoop resp filemap l dir k).1.length = i + 1 := by
  intro l
  induction l with
  | nil =>
    intro dir k i hi _ _
    exact absurd hi (by simp)
  | cons f rest ih =>
    intro dir k i hi hs hb
    cases i with
    | zero =>
      have hc : containsHtmlMarker (resp k) = true := by
        simpa using containsHtmlMarker_of_starts hs
      unfold uploadLoop
      by_cases hdir : dir = ""
      · rw [if_pos hdir, if_pos hc]
        exact ⟨rfl, rfl⟩
      · rw [if_neg hdir, if_pos hc]
        exact ⟨rfl, rfl⟩
    | succ i =>
      have hc0 : containsHtmlMarker (resp k) = false := by
        have := hb 0 (Nat.succ_pos i)
        simpa using this
      have hs2 : startsWithHtmlMarker (resp (k + 1 + i)) = true := by
        have : k + 1 + i = k + (i + 1) := by omega
        rw [this]; exact hs
      have hb2 : ∀ j, j < i → containsHtmlMarker (resp (k + 1 + j)) = false := by
        intro j hj
        have : k + 1 + j = k + (j + 1) := by omega
        rw [this]
        exact hb (j + 1) (Nat.succ_lt_succ hj)
      have hlen : i < rest.length := by simpa using Nat.lt_of_succ_lt_succ hi
      obtain ⟨ha, hl⟩ := ih (if dir = "" then resp k else dir) (k + 1) i hlen hs2 hb2
      unfold uploadLoop
      by_cases hdir : dir = ""
      · rw [if_pos hdir, if_neg (by simp [hc0])]
        rw [if_pos hdir] at ha hl
        refine ⟨ha, ?_⟩
        simp [hl]
      · rw [if_neg hdir, if_neg (by simp [hc0])]
        rw [if_neg hdir] at ha hl
        refine ⟨ha, ?_⟩
        simp [hl]

/-- C9: if the i-th response of an upload run begins with an HTML
document (and the earlier responses do not), the run aborts with a
non-zero exit after exactly i + 1 uploads: the files after the i-th are
never uploaded. -/
theorem oload_upload_files_html_abort (resp : Nat → String)
    (filemap : List (String × String)) (l : List String) (i : Nat)
    (hi : i < l.length)
    (hs : startsWithHtmlMarker (resp i) = true)
    (hb : ∀ j, j < i → containsHtmlMarker (resp j) = false) :
    (oload_upload_files resp filemap l).2 = .error () ∧
    (oload_upload_files resp filemap l).1.length = i + 1 := by
  unfold oload_upload_files
  exact uploadLoop_html_abort resp filemap l "" 0 i hi (by simpa using hs)
    (by intro j hj; simpa using hb j hj)

/-- C9 witness: the second response of a three-file run is an HTML error
page; the run aborts after two uploads. -/
theorem oload_upload_files_html_abort_witness :
    (oload_upload_files
        (fun k => if k = 1 then "<html><head><title>err" else "dx")
        [] ["a", "b", "c"]).2 = .error () ∧
    (oload_upload_files
        (fun k => if k = 1 then "<html><head><title>err" else "dx")
        [] ["a", "b", "c"]).1.length = 2 :=
  oload_upload_files_html_abort
    (fun k => if k = 1 then "<html><head><title>err" else "dx")
    [] ["a", "b", "c"] 1 (by decide) (by decide)
    (by
      intro j hj
      have : j = 0 := by omega
      subst this
      decide)

end QorusRemote
